import Mathlib

/-!
Verification development for the fuels-app spreadsheet pipeline
(`src/streamlit_app.py`).

The pipeline is embedded shallowly:

* a worksheet is a list of rows, a row a list of cell values, where an
  absent cell reads as the empty value (openpyxl returns `None` for any
  cell that was never written);
* cell values are empty / number / text.  Numbers are modelled as `ℚ`
  (the source works with Python floats; every claim below is about the
  structure of the computation, not about rounding);
* the combined workbook produced by `build_combined_workbook_bytes` is
  values-only by construction (`_copy_block_values_only` copies cached
  values and nulls any leftover `"="`-strings), so the "freeze formulas"
  pass of the calculation phase is a no-op and cell values carry no
  formulas here.  Merged-region metadata is modelled separately for the
  Merge-Region Normalizer (`unmerge_and_fill`); the value pipeline below
  works on the flattened (merge-free) view of the sheet;
* Python string operations are re-implemented over `List Char`
  (`String.data`) so that every definition evaluates inside the kernel.

Python's `list.sort` is a stable sort; a stable sort's output is uniquely
determined by the comparator, so it is modelled by `List.insertionSort`
(which is stable) over the decidable total preorder induced by the
source's `_sort_key` tuple.
-/

namespace FuelsApp

/-! ## Python string primitives over `List Char` -/

/-- Characters stripped by Python's `str.strip()`. -/
def pyIsSpace (c : Char) : Bool :=
  c = ' ' || c = '\t' || c = '\n' || c = '\x0d' || c = '\x0b' || c = '\x0c'

/-- Strip leading and trailing whitespace from a character list. -/
def trimL (l : List Char) : List Char :=
  ((l.dropWhile pyIsSpace).reverse.dropWhile pyIsSpace).reverse

/-- Python `s.strip()`. -/
def pyStrip (s : String) : String := ⟨trimL s.data⟩

/-- Python `s.upper()` (ASCII; all category tokens in the source are ASCII). -/
def pyUpper (s : String) : String := ⟨s.data.map Char.toUpper⟩

/-- Python `s.lower()` (ASCII). -/
def pyLower (s : String) : String := ⟨s.data.map Char.toLower⟩

/-- String concatenation (Python `a + b`). -/
def sCat (a b : String) : String := ⟨a.data ++ b.data⟩

/-- Does `hay` start with `needle`?  (first argument is the needle) -/
def startsWithL : List Char → List Char → Bool
  | [], _ => true
  | _ :: _, [] => false
  | a :: as, b :: bs => a = b && startsWithL as bs

/-- Does `hay` contain `needle` as a contiguous run? -/
def hasSubL (needle : List Char) : List Char → Bool
  | [] => needle.isEmpty
  | h :: t => startsWithL needle (h :: t) || hasSubL needle t

/-- Python `needle in hay` on strings. -/
def pyIn (needle hay : String) : Bool := hasSubL needle.data hay.data

/-- Python `s.startswith(p)`. -/
def pyStartsWith (s p : String) : Bool := startsWithL p.data s.data

/-- Split into maximal whitespace-free words, Python `s.split()`. -/
def wordsAux : List Char → List Char → List (List Char)
  | [], acc => if acc.isEmpty then [] else [acc.reverse]
  | c :: t, acc =>
      if pyIsSpace c then
        (if acc.isEmpty then wordsAux t [] else acc.reverse :: wordsAux t [])
      else wordsAux t (c :: acc)

def wordsL (l : List Char) : List (List Char) := wordsAux l []

/-! ## Model of Python `float(...)` on text

`float` accepts an optional sign, a decimal mantissa and an optional
exponent; anything else raises `ValueError`.  The special tokens
`inf` / `nan` are not modelled (no claim involves them). -/

def digitsToNat (ds : List Char) : ℕ :=
  ds.foldl (fun a d => a * 10 + (d.toNat - 48)) 0

def allDigits (ds : List Char) : Bool := !ds.isEmpty && ds.all (·.isDigit)

def parseSign : List Char → Int × List Char
  | '+' :: t => (1, t)
  | '-' :: t => (-1, t)
  | l => (1, l)

def parseMantissa (l : List Char) : Option ℚ :=
  match l.splitOn '.' with
  | [ip] => if allDigits ip then some (digitsToNat ip) else none
  | [ip, fp] =>
      if ip.all (·.isDigit) && fp.all (·.isDigit) && (!ip.isEmpty || !fp.isEmpty) then
        some ((digitsToNat ip : ℚ) + (digitsToNat fp : ℚ) / (10 : ℚ) ^ fp.length)
      else none
  | _ => none

/-- Python `float(s)` for a text argument; `none` models `ValueError`. -/
def pyFloat? (s : String) : Option ℚ :=
  let cs := (pyLower (pyStrip s)).data
  let sr := parseSign cs
  match sr.2.splitOn 'e' with
  | [m] => (parseMantissa m).map (fun q => (sr.1 : ℚ) * q)
  | [m, ex] =>
      match parseMantissa m with
      | none => none
      | some q =>
          let er := parseSign ex
          if allDigits er.2 then
            some ((sr.1 : ℚ) * q * (10 : ℚ) ^ (er.1 * (digitsToNat er.2 : ℤ)))
          else none
  | _ => none

/-! ## Cells and rows -/

/-- A cell value: empty (`None`), a number, or text. -/
inductive CellVal where
  | empty : CellVal
  | num : ℚ → CellVal
  | str : String → CellVal
deriving DecidableEq, Repr

abbrev Row := List CellVal

/-- Read a cell; absent cells read as empty (openpyxl returns `None`). -/
def getC (r : Row) (i : ℕ) : CellVal := r.getD i .empty

/-- Write a cell, materialising absent cells as empty first. -/
def setC : Row → ℕ → CellVal → Row
  | [], 0, v => [v]
  | [], n + 1, v => .empty :: setC [] n v
  | _ :: t, 0, v => v :: t
  | a :: t, n + 1, v => a :: setC t n v

/-- Python `str(...)` of a cell's value.  Call sites in the source always
guard `None` separately; the numeric rendering is a fixed executable
stand-in for Python's float formatting (no claim depends on its shape). -/
def pyNumStr (q : ℚ) : String := if q.den = 1 then toString q.num else toString q

def pyStr : CellVal → String
  | .empty => "None"
  | .num q => pyNumStr q
  | .str s => s

/-- Source `_clean_str`: `"" if v is None else str(v).strip()`. -/
def cleanStr : CellVal → String
  | .empty => ""
  | v => pyStrip (pyStr v)

/-- The `"" if v is None else str(v).strip()` pattern of the dedup pass and
of the category-total key. -/
def cellStrip : CellVal → String
  | .empty => ""
  | v => pyStrip (pyStr v)

/-- Source `safe_float`: `None` → 0, numbers pass through, text is
stripped, commas removed, parsed, and an unparseable remainder → 0. -/
def stripCommas (s : String) : String := ⟨s.data.filter (fun c => !(c = ','))⟩

def safe_float : CellVal → ℚ
  | .empty => 0
  | .num q => q
  | .str v =>
      let s := pyStrip v
      if s = "" then 0
      else
        match pyFloat? (stripCommas s) with
        | some q => q
        | none => 0

/-- Python `float(v)` on a cell value (raises on `None` and bad text). -/
def pyFloatV? : CellVal → Option ℚ
  | .empty => none
  | .num q => some q
  | .str s => pyFloat? s

/-- The `0.0 if v is None else float(v)` conversion of the fuel-sum loop. -/
def pyFloatD? : CellVal → Option ℚ
  | .empty => some 0
  | .num q => some q
  | .str s => pyFloat? s

/-- Source `norm_header`: `"" if x is None else " ".join(str(x).split()).strip().upper()`. -/
def norm_header : CellVal → String
  | .empty => ""
  | v => pyUpper (pyStrip ⟨List.intercalate [' '] (wordsL (pyStr v).data)⟩)

/-- Source `_norm_intervention`: `"" if v is None else str(v).strip().upper()`. -/
def norm_intervention : CellVal → String
  | .empty => ""
  | v => pyUpper (pyStrip (pyStr v))

/-! ## Association-list model of a Python `dict` keyed totals map -/

def dFind {κ : Type} [DecidableEq κ] : List (κ × ℚ) → κ → Option ℚ
  | [], _ => none
  | p :: m, k => if p.1 = k then some p.2 else dFind m k

def dUpd {κ : Type} [DecidableEq κ] : List (κ × ℚ) → κ → ℚ → List (κ × ℚ)
  | [], k, v => [(k, v)]
  | p :: m, k, v => if p.1 = k then (k, v) :: m else p :: dUpd m k v

/-- One pass of `totals[key] = totals.get(key, 0.0) + val` over the rows;
`keyO r = none` models a row the loop skips. -/
def buildTotalsO {κ : Type} [DecidableEq κ] (keyO : Row → Option κ) (val : Row → ℚ)
    (data : List Row) : List (κ × ℚ) :=
  data.foldl
    (fun m r =>
      match keyO r with
      | none => m
      | some k => dUpd m k ((dFind m k).getD 0 + val r))
    []

/-- The `totals.get(k, 0.0)` read-back. -/
def lookupT {κ : Type} [DecidableEq κ] (keyO : Row → Option κ) (val : Row → ℚ)
    (data : List Row) (k : κ) : ℚ :=
  (dFind (buildTotalsO keyO val data) k).getD 0

/-! ## Calculation pipeline stages (`run_calculations_on_combined_bytes`)

Sheet rows are 1-based in the source; here a sheet is a `List Row` whose
head is sheet row 1.  Columns are 0-based (source column D is index 3). -/

/-- A cell counts as blank for data-bounds purposes when it is `None` or `""`. -/
def cellBlank : CellVal → Bool
  | .empty => true
  | .str s => s = ""
  | .num _ => false

/-- Does the row contain the token TOTAL in columns A–C? -/
def rowHasTOTAL (r : Row) : Bool :=
  [0, 1, 2].any fun c =>
    match getC r c with
    | .empty => false
    | v => pyIn "TOTAL" (pyUpper (pyStr v))

/-- Filter of rows containing TOTAL in A–C (applied to every sheet row). -/
def totalFilter (sheet : List Row) : List Row :=
  sheet.filter (fun r => !rowHasTOTAL r)

/-- Fuel sum of one row from columns D and E: both `None` gives empty,
otherwise `float` with `None` as 0 and the whole sum degrading to empty
when either conversion raises. -/
def fuelSumVal (d e : CellVal) : CellVal :=
  if d = .empty ∧ e = .empty then .empty
  else
    match pyFloatD? d, pyFloatD? e with
    | some a, some b => .num (a + b)
    | none, _ => .empty
    | some _, none => .empty

/-- Fuel-sum synthesis: header F gets "Fuel sum", every data row gets its
fuel sum in F (index 5). -/
def fuelStage (sheet : List Row) : List Row :=
  setC (sheet.headD []) 5 (.str "Fuel sum") ::
    (sheet.drop 1).map (fun r => setC r 5 (fuelSumVal (getC r 3) (getC r 4)))

/-- Is a data row removed by the zero/empty fuel filter?  `None` or blank
text removes; otherwise `float` equal to 0 removes and a `ValueError` is
swallowed (`except: pass`). -/
def fuelRowBad (v : CellVal) : Bool :=
  match v with
  | .empty => true
  | .str s =>
      if pyStrip s = "" then true
      else
        match pyFloat? s with
        | some q => q = 0
        | none => false
  | .num q => q = 0

def zeroFilter (sheet : List Row) : List Row :=
  sheet.headD [] :: (sheet.drop 1).filter (fun r => !fuelRowBad (getC r 5))

/-- Delete columns E then D (`ws.delete_cols(5); ws.delete_cols(4)`). -/
def delDE (sheet : List Row) : List Row :=
  sheet.map (fun r => (r.eraseIdx 4).eraseIdx 3)

/-- The description concatenation rule `f"{a_s},{b_s},{c_s}"` on the first
three columns (with `None` rendered as the empty string). -/
def cellS : CellVal → String
  | .empty => ""
  | v => pyStr v

def descConcat (r : Row) : String :=
  sCat (cellS (getC r 0)) (sCat "," (sCat (cellS (getC r 1)) (sCat "," (cellS (getC r 2)))))

/-- Insert column E and fill it with the description key. -/
def descStage (sheet : List Row) : List Row :=
  let s := sheet.map (List.insertIdx 4 CellVal.empty)
  setC (s.headD []) 4 (.str "Description Sum") ::
    (s.drop 1).map (fun r => setC r 4 (.str (descConcat r)))

/-- The Unified-Fuel totals dict: group sum of fuel (D, index 3) keyed by
the raw description-cell value (E, index 4). -/
def uniTotals (data : List Row) : List (CellVal × ℚ) :=
  buildTotalsO (fun r => some (getC r 4)) (fun r => safe_float (getC r 3)) data

def uniVal (data : List Row) (k : CellVal) : ℚ := (dFind (uniTotals data) k).getD 0

/-- Insert column F and fill it with the two-pass group sum of fuel. -/
def uniStage (sheet : List Row) : List Row :=
  let s := sheet.map (List.insertIdx 5 CellVal.empty)
  let data := s.drop 1
  setC (s.headD []) 5 (.str "Unified Fuel") ::
    data.map (fun r => setC r 5 (.num (uniVal data (getC r 4))))

/-- Index of the last column of the header row satisfying `p`; the source
loop overwrites its variable on every match, so the last match wins. -/
def lastIdxAux (p : CellVal → Bool) : List CellVal → ℕ → Option ℕ → Option ℕ
  | [], _, acc => acc
  | a :: l, i, acc => lastIdxAux p l (i + 1) (if p a then some i else acc)

def lastIdxWhere (p : CellVal → Bool) (l : List CellVal) : Option ℕ :=
  lastIdxAux p l 0 none

/-- Column of the INTERVENTION header, defaulting to column A. -/
def ivColOf (sheet : List Row) : ℕ :=
  (lastIdxWhere (fun v => norm_header v = "INTERVENTION") (sheet.headD [])).getD 0

/-- Column of the required AGENCY header, if present. -/
def agColOf (sheet : List Row) : Option ℕ :=
  lastIdxWhere (fun v => norm_header v = "AGENCY") (sheet.headD [])

/-! ## Categorizer -/

/-- The source's canonical set, including the legacy alias `UN-OHCHR`. -/
def REGULAR_INTERVENTIONS : List String :=
  ["TELECOMMUNICATIONS", "HEALTH", "WASH", "INGOS", "UN-OHCHR", "WFP", "LOGISTICS"]

/-- The spec's canonical category set (the legacy alias is rewritten away
before the fold runs, so it is not a member). -/
def canonicalSet : List String :=
  ["TELECOMMUNICATIONS", "HEALTH", "WASH", "INGOS", "WFP", "LOGISTICS"]

/-- Normalisation pass: any intervention whose stripped uppercase text
contains `UN-OHCHR` is rewritten to `INGOs` (a `None` cell is skipped). -/
def aliasRow (ivCol : ℕ) (r : Row) : Row :=
  if getC r ivCol = .empty then r
  else if pyIn "UN-OHCHR" (pyUpper (pyStrip (pyStr (getC r ivCol)))) then
    setC r ivCol (.str "INGOs")
  else r

/-- The relocated agency text: `f"{iv_raw} - {agency_raw}"`, or
`f"{iv_raw} -"` when the agency is blank. -/
def foldAgency (ivRaw agencyRaw : String) : String :=
  if agencyRaw ≠ "" then sCat (sCat ivRaw " - ") agencyRaw else sCat ivRaw " -"

/-- The agency field after the fold touches it (it is left alone when it
already starts with the `"<iv_raw> - "` disambiguating text). -/
def foldAgencyRow (ivCol agCol : ℕ) (r : Row) : Row :=
  if pyStartsWith (cleanStr (getC r agCol)) (sCat (cleanStr (getC r ivCol)) " - ") then r
  else setC r agCol (.str (foldAgency (cleanStr (getC r ivCol)) (cleanStr (getC r agCol))))

/-- The category fold: a non-empty intervention outside
`REGULAR_INTERVENTIONS` is relocated into the agency field as a
disambiguating marker and the intervention is rewritten to `INGOs`;
the returned flag is `is_converted`. -/
def foldRow (ivCol agCol : ℕ) (r : Row) : Row × Bool :=
  if cleanStr (getC r ivCol) ≠ "" ∧ pyUpper (cleanStr (getC r ivCol)) ∉ REGULAR_INTERVENTIONS then
    (setC (foldAgencyRow ivCol agCol r) ivCol (.str "INGOs"), true)
  else (r, false)

/-- One element of `rows_data`: the per-record state the sort works on. -/
structure RowData where
  fuel : ℚ
  intervention : String
  isConverted : Bool
  origIndex : ℕ
  descKey : CellVal
  row : Row
deriving DecidableEq

def buildRowData (ivCol agCol : ℕ) (idx : ℕ) (r0 : Row) : RowData :=
  let p := foldRow ivCol agCol r0
  { fuel := safe_float (getC p.1 5)
    intervention := cleanStr (getC p.1 ivCol)
    isConverted := p.2
    origIndex := idx
    descKey := getC p.1 4
    row := p.1 }

/-- The alias pass followed by the fold pass over the data rows, producing
`rows_data` with `orig_index` starting at sheet row 2. -/
def categorizeRows (ivCol agCol : ℕ) (data : List Row) : List RowData :=
  ((data.map (aliasRow ivCol)).enum).map (fun p => buildRowData ivCol agCol (p.1 + 2) p.2)

/-- The converted-rows identity set `converted_desc_keys`. -/
def convertedKeys (rds : List RowData) : List CellVal :=
  (rds.filter (·.isConverted)).map (·.descKey)

/-! ## Sort & Group Engine (`_sort_key` and the single `rows_data.sort`) -/

/-- `iv = (x["intervention"] or "").strip().lower()`. -/
def ivLow (x : RowData) : String := pyLower (pyStrip x.intervention)

/-- `converted_rank = 1 if (is_ingos and x["is_converted"]) else 0`. -/
def convRank (x : RowData) : ℕ :=
  if ivLow x = "ingos" ∧ x.isConverted then 1 else 0

/-- `fuel_rank = -x["fuel"] if is_ingos else -x["fuel"]` (both branches are
the same expression in the source). -/
def fuelRank (x : RowData) : ℚ := if ivLow x = "ingos" then -x.fuel else -x.fuel

/-- The composite sort key, compared lexicographically as Python compares
the source's 4-tuple.  Text compares by code points, hence `List Char`. -/
abbrev SKey := List Char ×ₗ ℕ ×ₗ ℚ ×ₗ ℕ

def sortKey (x : RowData) : SKey :=
  toLex ((ivLow x).data, toLex (convRank x, toLex (fuelRank x, x.origIndex)))

def rowLE (a b : RowData) : Prop := sortKey a ≤ sortKey b

instance : DecidableRel rowLE :=
  fun a b => inferInstanceAs (Decidable (sortKey a ≤ sortKey b))

instance : IsTotal RowData rowLE := ⟨fun a b => le_total (sortKey a) (sortKey b)⟩

instance : IsTrans RowData rowLE := ⟨fun _ _ _ h1 h2 => le_trans h1 h2⟩

/-- Python `list.sort` is stable, and a stable sort's output is uniquely
determined by the comparator; `insertionSort` is stable. -/
def sortRows (l : List RowData) : List RowData := List.insertionSort rowLE l

/-- The ordering exactly as claim C2 words it: category (case-insensitive,
code-point lexicographic), then folded rank, then group-unified fuel
descending, then original row index ascending. -/
def claimOrder (a b : RowData) : Prop :=
  (ivLow a).data < (ivLow b).data ∨
    ((ivLow a).data = (ivLow b).data ∧
      (convRank a < convRank b ∨
        (convRank a = convRank b ∧
          (b.fuel < a.fuel ∨ (a.fuel = b.fuel ∧ a.origIndex ≤ b.origIndex)))))

instance : DecidableRel claimOrder := fun a b => by
  unfold claimOrder
  infer_instance

/-- The index-free part of the sort key (category, folded rank, fuel rank). -/
def pref3 (x : RowData) : List Char ×ₗ ℕ ×ₗ ℚ :=
  toLex ((ivLow x).data, toLex (convRank x, fuelRank x))

/-- Reading the sorted sheet back row by row re-assigns `orig_index` as
consecutive sheet rows starting at 2. -/
def reindexFrom (k : ℕ) : List RowData → List RowData
  | [] => []
  | a :: l => { a with origIndex := k } :: reindexFrom (k + 1) l

/-- Sheet-level sort stage: categorize, sort, write the snapshot rows back
under the header, and report the converted keys. -/
def sortStage (ivCol agCol : ℕ) (sheet : List Row) : List Row × List CellVal :=
  let rds := categorizeRows ivCol agCol (sheet.drop 1)
  (sheet.headD [] :: (sortRows rds).map (·.row), convertedKeys rds)

/-! ## Deduplicator -/

/-- Dedup key of a row: the stripped description text (E, index 4), with
empty for a blank cell. -/
def dedupKey (r : Row) : String := cellStrip (getC r 4)

def dedupAux (seen : List String) : List Row → List Row
  | [] => []
  | r :: t =>
      if dedupKey r ∈ seen then dedupAux seen t
      else r :: dedupAux (dedupKey r :: seen) t

def dedupRows (data : List Row) : List Row := dedupAux [] data

def dedupStage (sheet : List Row) : List Row :=
  sheet.headD [] :: dedupRows (sheet.drop 1)

/-! ## Category totals, presentation merge of column G, LOGISTICS rename -/

def sheetMaxCol (sheet : List Row) : ℕ :=
  max 1 ((sheet.map List.length).foldr max 0)

/-- The category totals dict: group sum of Unified Fuel (index 5) keyed by
the stripped text of column A. -/
def catTotals (data : List Row) : List (String × ℚ) :=
  buildTotalsO (fun r => some (cellStrip (getC r 0))) (fun r => safe_float (getC r 5)) data

def catVal (data : List Row) (k : String) : ℚ := (dFind (catTotals data) k).getD 0

/-- Insert column G when at least seven columns exist, then fill G with the
per-category group sum. -/
def catTotalStage (sheet : List Row) : List Row :=
  let s := if 7 ≤ sheetMaxCol sheet then sheet.map (List.insertIdx 6 CellVal.empty) else sheet
  let data := s.drop 1
  setC (s.headD []) 6 (.str "Total Sum Per Category") ::
    data.map (fun r => setC r 6 (.num (catVal data (cellStrip (getC r 0)))))

/-- Maximal runs of consecutive rows with equal normalised intervention. -/
def runsBy (f : Row → String) : List Row → List (List Row)
  | [] => []
  | a :: t =>
      match runsBy f t with
      | [] => [[a]]
      | [] :: rs => [a] :: [] :: rs
      | (b :: u) :: rs =>
          if f a = f b then (a :: b :: u) :: rs else [a] :: (b :: u) :: rs

/-- Merging a run of length at least 2 erases the covered (non-top) values
of column G, as `merge_cells` does. -/
def blankRunG : List Row → List Row
  | [] => []
  | [r] => [r]
  | r :: rest => r :: rest.map (fun x => setC x 6 .empty)

def mergeCatRuns (ivCol : ℕ) (sheet : List Row) : List Row :=
  sheet.headD [] ::
    ((runsBy (fun r => norm_intervention (getC r ivCol)) (sheet.drop 1)).map blankRunG).flatten

/-- Rename any remaining LOGISTICS intervention to "UN Agencies" (a `None`
cell is skipped). -/
def renameRow (ivCol : ℕ) (r : Row) : Row :=
  if getC r ivCol = .empty then r
  else if pyUpper (pyStrip (pyStr (getC r ivCol))) = "LOGISTICS" then
    setC r ivCol (.str "UN Agencies")
  else r

def renameStage (ivCol : ℕ) (sheet : List Row) : List Row :=
  sheet.headD [] :: (sheet.drop 1).map (renameRow ivCol)

/-! ## Summary projector -/

/-- Key of `totals_by_intervention`: rows with a blank intervention are
skipped, other rows are keyed by the stripped uppercase intervention. -/
def summaryKeyO (ivCol : ℕ) (r : Row) : Option String :=
  let k := cellStrip (getC r ivCol)
  if k = "" then none else some (pyUpper k)

def summaryTotals (ivCol : ℕ) (data : List Row) : List (String × ℚ) :=
  buildTotalsO (summaryKeyO ivCol) (fun r => safe_float (getC r 5)) data

def summaryVal (ivCol : ℕ) (data : List Row) (k : String) : ℚ :=
  (dFind (summaryTotals ivCol data) k).getD 0

def sector_rows : List (String × String) :=
  [("TELECOMMUNICATIONS", "תקשורת"),
   ("HEALTH", "בריאות"),
   ("WASH", "סניטציה"),
   ("INGOS", "ארגונים לא ממשלתיים"),
   ("UN AGENCIES", "סוכנויות או\"ם"),
   ("WFP", "WFP")]

def summarySheet (ivCol : ℕ) (data : List Row) : List (String × ℚ) :=
  sector_rows.map (fun p => (p.2, summaryVal ivCol data (pyUpper (pyStrip p.1))))

/-! ## The calculation phase assembled -/

structure CalcOut where
  main : List Row
  colorKeys : List CellVal
  summary : List (String × ℚ)
deriving DecidableEq

/-- The sheet state at the moment the header search runs: delete row 2,
drop TOTAL rows, synthesize Fuel sum, drop zero-fuel rows, delete D and E,
insert the description and unified-fuel columns. -/
def s9of (sheet0 : List Row) : List Row :=
  uniStage (descStage (delDE (zeroFilter (fuelStage (totalFilter (sheet0.eraseIdx 1))))))

def calcTail (ivCol agCol : ℕ) (s9 : List Row) : CalcOut :=
  let srt := sortStage ivCol agCol s9
  let sB := dedupStage srt.1
  let sC := catTotalStage sB
  let sD := mergeCatRuns ivCol sC
  let sE := renameStage ivCol sD
  { main := sE, colorKeys := srt.2, summary := summarySheet ivCol (sE.drop 1) }

/-- `run_calculations_on_combined_bytes` on a single-sheet workbook: the
target-sheet check, then the AGENCY header requirement, then the pure
transformation chain (the colorizer writes only fills, hence no cell
values, and is represented by `colorKeys`, the identity set it consults). -/
def run_calculations (title : String) (sheet0 : List Row) : Except String CalcOut :=
  if pyStrip title = "Distribution Summary" then
    match agColOf (s9of sheet0) with
    | none => .error "Header AGENCY not found."
    | some agCol => .ok (calcTail (ivColOf (s9of sheet0)) agCol (s9of sheet0))
  else .error "Sheet Distribution Summary not found."

/-! ## Multi-source combiner (`build_combined_workbook_bytes`) -/

/-- An upload: unreadable as a workbook, or a list of named sheets. -/
inductive Upload where
  | bad : Upload
  | wb : List (String × List Row) → Upload

/-- Source `_norm`: strip, lower, collapse internal whitespace. -/
def normSheetName (s : String) : String :=
  ⟨List.intercalate [' '] (wordsL (pyLower (pyStrip s)).data)⟩

/-- Source `_find_target_sheet`: normalised exact match for the UNOPS then
the WFP target name, then a broader token match. -/
def findTarget (names : List String) : Option (String × String) :=
  match names.find? (fun n => normSheetName n = normSheetName "UNOPS Total Distribution") with
  | some n => some ("UNOPS", n)
  | none =>
      match names.find? (fun n => normSheetName n = normSheetName "WFP Total Distribution") with
      | some n => some ("WFP", n)
      | none =>
          names.findSome? fun n =>
            if pyIn "total" (normSheetName n) && pyIn "distribution" (normSheetName n) then
              if pyIn "unops" (normSheetName n) then some ("UNOPS", n)
              else if pyIn "wfp" (normSheetName n) then some ("WFP", n)
              else none
            else none

structure Task where
  kind : String
  rows : List Row
deriving DecidableEq

def mkTask : Upload → Option Task
  | .bad => none
  | .wb sheets =>
      match findTarget (sheets.map (·.1)) with
      | none => none
      | some kn => (sheets.find? (fun p => p.1 = kn.2)).map (fun p => ⟨kn.1, p.2⟩)

def mkTasks (us : List Upload) : List Task := us.filterMap mkTask

/-- `tasks.sort(key=lambda x: 0 if x["kind"] == "UNOPS" else 1)` (stable). -/
def orderTasks (ts : List Task) : List Task :=
  ts.filter (fun t => t.kind = "UNOPS") ++ ts.filter (fun t => !(t.kind = "UNOPS"))

def rowHasDataCols (lo : ℕ) (r : Row) (mc : ℕ) : Bool :=
  ((List.range mc).filter (fun c => lo ≤ c)).any (fun c => !cellBlank (getC r c))

def rowHasData (r : Row) (mc : ℕ) : Bool := rowHasDataCols 0 r mc

/-- Source `_first_data_row`: first non-blank row scanning sheet rows 3 to
203, defaulting to 3. -/
def firstDataRow (rows : List Row) : ℕ :=
  let mc := sheetMaxCol rows
  match ((rows.drop 2).take 201).findIdx? (fun r => rowHasData r mc) with
  | some i => 3 + i
  | none => 3

/-- Source `_last_data_row`: last non-blank row at or after `startRow`,
else `startRow - 1`. -/
def lastDataRow (rows : List Row) (startRow mc : ℕ) : ℕ :=
  match
    ((rows.enum.filter (fun p => decide (startRow ≤ p.1 + 1) && rowHasData p.2 mc)).map
      (fun p => p.1 + 1)).getLast?
  with
  | some r => r
  | none => startRow - 1

/-- Source `_insert_wfp_column_a`: shift every row right by one and stamp
`WFP` into column A of each in-range data row. -/
def insertWFPcolA (rows : List Row) (s e : ℕ) : List Row :=
  let shifted := rows.map (List.insertIdx 0 CellVal.empty)
  let mc := sheetMaxCol shifted
  shifted.enum.map fun p =>
    if s ≤ p.1 + 1 ∧ p.1 + 1 ≤ e ∧ rowHasDataCols 1 p.2 mc then setC p.2 0 (.str "WFP")
    else p.2

/-- Delete columns F–I (the guard `col <= ws.max_column` makes the
per-row erases below coincide with the sheet-global deletes). -/
def delFI (r : Row) : Row := (((r.eraseIdx 8).eraseIdx 7).eraseIdx 6).eraseIdx 5

structure CombSt where
  mmc : ℕ
  header : Option (List Row)
  data : List Row

def windowRow (mc : ℕ) (r : Row) : Row := (List.range mc).map (getC r)

/-- One iteration of the combiner loop over `(task, bounds)`. -/
def combineStep (st : CombSt) (tb : Task × ℕ × ℕ) : CombSt :=
  let t := tb.1
  let startR := tb.2.1
  let endR := tb.2.2
  if endR < startR then st
  else
    let rows1 := if t.kind = "WFP" then insertWFPcolA t.rows startR endR else t.rows
    let mmc1 := if t.kind = "WFP" then max st.mmc (sheetMaxCol rows1) else st.mmc
    let end2 := lastDataRow rows1 startR (sheetMaxCol rows1)
    if end2 < startR then { st with mmc := mmc1 }
    else
      let rows2 := rows1.eraseIdx (end2 - 1)
      let end3 := end2 - 1
      if end3 < startR then { st with mmc := mmc1 }
      else
        let hdr :=
          match st.header with
          | some h => some h
          | none => some [windowRow mmc1 (rows2.headD []), windowRow mmc1 (rows2.getD 1 [])]
        { mmc := mmc1,
          header := hdr,
          data := st.data ++ ((rows2.drop (startR - 1)).take (end3 - startR + 1)).map (windowRow mmc1) }

/-- The combiner body on a non-empty ordered task list: bounds pre-pass,
per-task append, header rows 1–2 (empty when every task was skipped),
then the constant-enabled deletion of columns F–I.  Merged-region
presentation (re-merging A/B and WFP blocks) is metadata the calculation
phase flattens again; values are modelled directly. -/
def combineAll (ts : List Task) : List Row :=
  let mmc0 := (ts.map (fun t => sheetMaxCol t.rows)).foldr max 1
  let bounds :=
    ts.map fun t =>
      let s := firstDataRow t.rows
      (s, lastDataRow t.rows s (sheetMaxCol t.rows))
  let fin := (ts.zip bounds).foldl combineStep ⟨mmc0, none, []⟩
  ((fin.header.getD [[], []]) ++ fin.data).map delFI

/-- `build_combined_workbook_bytes`: skip unreadable uploads and uploads
with no recognisable target sheet; raise when none remain; the master
sheet is always titled "Distribution Summary". -/
def build_combined_workbook (us : List Upload) : Except String (String × List Row) :=
  let ts := orderTasks (mkTasks us)
  if ts.isEmpty then .error "No valid files found."
  else .ok ("Distribution Summary", combineAll ts)

/-- The full pipeline: combine, then calculate. -/
def runPipeline (us : List Upload) : Except String CalcOut :=
  match build_combined_workbook us with
  | .error e => .error e
  | .ok p => run_calculations p.1 p.2

/-! ## Merge-Region Normalizer (`unmerge_and_fill`) -/

structure MergeRange where
  minRow : ℕ
  minCol : ℕ
  maxRow : ℕ
  maxCol : ℕ
deriving DecidableEq

/-- A worksheet for the normalizer: a value-and-presentation grid plus the
merged-region list.  `π` is the opaque presentation payload. -/
structure WSheet (π : Type) where
  grid : ℕ → ℕ → CellVal × π
  merges : List MergeRange

/-- The source predicate `not (mr.max_col < col_min or mr.min_col > col_max)`. -/
def mrIntersects (lo hi : ℕ) (m : MergeRange) : Bool :=
  !(decide (m.maxCol < lo) || decide (hi < m.minCol))

def covers (m : MergeRange) (r c : ℕ) : Prop :=
  m.minRow ≤ r ∧ r ≤ m.maxRow ∧ m.minCol ≤ c ∧ c ≤ m.maxCol

instance (m : MergeRange) (r c : ℕ) : Decidable (covers m r c) :=
  inferInstanceAs (Decidable (_ ∧ _ ∧ _ ∧ _))

/-- Rectangles sharing no cell (as openpyxl merge ranges never overlap). -/
def mrDisjoint (a b : MergeRange) : Prop :=
  a.maxRow < b.minRow ∨ b.maxRow < a.minRow ∨ a.maxCol < b.minCol ∨ b.maxCol < a.minCol

instance (a b : MergeRange) : Decidable (mrDisjoint a b) :=
  inferInstanceAs (Decidable (_ ∨ _ ∨ _ ∨ _))

/-- Process one merged region: capture the top-left cell, dissolve the
region, write the captured value and presentation into every covered cell. -/
def unmergeOne {π : Type} (ws : WSheet π) (m : MergeRange) : WSheet π :=
  let tl := ws.grid m.minRow m.minCol
  { grid := fun r c => if covers m r c then tl else ws.grid r c,
    merges := ws.merges.erase m }

/-- Source `unmerge_and_fill`: collect the regions intersecting the column
range, then process each in order. -/
def unmerge_and_fill {π : Type} (lo hi : ℕ) (ws : WSheet π) : WSheet π :=
  (ws.merges.filter (mrIntersects lo hi)).foldl unmergeOne ws

/-! # Lemmas and theorems -/

/-! ## Cell access -/

theorem getC_nil (i : ℕ) : getC [] i = .empty := by
  cases i <;> rfl

theorem getC_setC_self : ∀ (r : Row) (i : ℕ) (v : CellVal), getC (setC r i v) i = v
  | [], 0, _ => rfl
  | [], n + 1, v => getC_setC_self [] n v
  | _ :: _, 0, _ => rfl
  | _ :: t, n + 1, v => getC_setC_self t n v

theorem getC_setC_ne : ∀ (r : Row) (i j : ℕ) (v : CellVal), j ≠ i →
    getC (setC r i v) j = getC r j
  | [], 0, 0, _, h => absurd rfl h
  | [], 0, _ + 1, _, _ => rfl
  | [], n + 1, 0, _, _ => rfl
  | [], n + 1, j + 1, v, h => by
      have := getC_setC_ne [] n j v (fun hc => h (by omega))
      simpa [getC, setC] using this
  | _ :: _, 0, 0, _, h => absurd rfl h
  | _ :: _, 0, _ + 1, _, _ => rfl
  | _ :: _, n + 1, 0, _, _ => rfl
  | a :: t, n + 1, j + 1, v, h => by
      have := getC_setC_ne t n j v (fun hc => h (by omega))
      simpa [getC, setC] using this

theorem getC_insertIdx_lt : ∀ (r : Row) (n i : ℕ) (v : CellVal), i < n →
    getC (List.insertIdx n v r) i = getC r i
  | _, 0, i, _, h => absurd h (Nat.not_lt_zero i)
  | [], n + 1, _, _, _ => rfl
  | _ :: _, n + 1, 0, _, _ => rfl
  | a :: t, n + 1, i + 1, v, h => by
      have := getC_insertIdx_lt t n i v (Nat.lt_of_succ_lt_succ h)
      simpa [getC] using this

/-! ## Substring facts -/

theorem startsWithL_refl : ∀ l : List Char, startsWithL l l = true
  | [] => rfl
  | a :: t => by simp [startsWithL, startsWithL_refl t]

theorem hasSubL_refl : ∀ l : List Char, hasSubL l l = true
  | [] => rfl
  | a :: t => by simp [hasSubL, startsWithL_refl]

theorem pyIn_self (s : String) : pyIn s s = true := hasSubL_refl s.data

/-! ## Dict lemmas -/

section Dict

variable {κ : Type} [DecidableEq κ]

theorem dFind_dUpd_self : ∀ (m : List (κ × ℚ)) (k : κ) (v : ℚ),
    dFind (dUpd m k v) k = some v
  | [], k, v => by simp [dUpd, dFind]
  | p :: m, k, v => by
      by_cases h : p.1 = k
      · simp [dUpd, dFind, h]
      · simp [dUpd, dFind, h, dFind_dUpd_self m k v]

theorem dFind_dUpd_ne : ∀ (m : List (κ × ℚ)) (k k' : κ) (v : ℚ), k' ≠ k →
    dFind (dUpd m k v) k' = dFind m k'
  | [], k, k', v, h => by simp [dUpd, dFind, Ne.symm h]
  | p :: m, k, k', v, h => by
      by_cases hp : p.1 = k
      · have hne : ¬ (k = k') := fun hc => h hc.symm
        have hne2 : ¬ (p.1 = k') := by rw [hp]; exact hne
        simp [dUpd, dFind, hp, hne, hne2]
      · simp only [dUpd, if_neg hp, dFind]
        by_cases hp' : p.1 = k'
        · simp [hp']
        · simp [hp', dFind_dUpd_ne m k k' v h]

theorem dFind_foldl_step (keyO : Row → Option κ) (val : Row → ℚ) :
    ∀ (data : List Row) (m : List (κ × ℚ)) (k : κ),
    (dFind
        (data.foldl
          (fun m r =>
            match keyO r with
            | none => m
            | some k => dUpd m k ((dFind m k).getD 0 + val r))
          m)
        k).getD 0
      = (dFind m k).getD 0 + ((data.filter (fun r => keyO r = some k)).map val).sum
  | [], m, k => by simp
  | r :: data, m, k => by
      rcases hko : keyO r with _ | k'
      · rw [List.foldl_cons]
        simp only [hko]
        rw [dFind_foldl_step keyO val data m k]
        simp [List.filter_cons, hko]
      · rw [List.foldl_cons]
        simp only [hko]
        by_cases hk : k' = k
        · rw [hk] at hko ⊢
          rw [dFind_foldl_step keyO val data _ k]
          simp [List.filter_cons, hko, dFind_dUpd_self]
          ring
        · rw [dFind_foldl_step keyO val data _ k]
          rw [dFind_dUpd_ne _ _ _ _ (Ne.symm hk)]
          have : ¬ (keyO r = some k) := by simp [hko, hk]
          simp [List.filter_cons, this]

/-- The `totals.get(k, 0.0)` read-back equals the group sum over the rows
carrying key `k`. -/
theorem lookupT_eq_sum (keyO : Row → Option κ) (val : Row → ℚ) (data : List Row) (k : κ) :
    lookupT keyO val data k
      = ((data.filter (fun r => keyO r = some k)).map val).sum := by
  have := dFind_foldl_step keyO val data [] k
  simpa [lookupT, buildTotalsO, dFind] using this

end Dict

theorem uniVal_eq_sum (data : List Row) (k : CellVal) :
    uniVal data k
      = ((data.filter (fun r => getC r 4 = k)).map (fun r => safe_float (getC r 3))).sum := by
  have := lookupT_eq_sum (fun r => some (getC r 4)) (fun r => safe_float (getC r 3)) data k
  simpa [uniVal, uniTotals, lookupT] using this

theorem catVal_eq_sum (data : List Row) (k : String) :
    catVal data k
      = ((data.filter (fun r => cellStrip (getC r 0) = k)).map
          (fun r => safe_float (getC r 5))).sum := by
  have := lookupT_eq_sum (fun r => some (cellStrip (getC r 0)))
    (fun r => safe_float (getC r 5)) data k
  simpa [catVal, catTotals, lookupT] using this

theorem summaryVal_eq_sum (ivCol : ℕ) (data : List Row) (k : String) :
    summaryVal ivCol data k
      = ((data.filter (fun r => summaryKeyO ivCol r = some k)).map
          (fun r => safe_float (getC r 5))).sum := by
  have := lookupT_eq_sum (summaryKeyO ivCol) (fun r => safe_float (getC r 5)) data k
  simpa [summaryVal, summaryTotals, lookupT] using this

/-! ## Deduplicator lemmas -/

theorem dedupAux_key_not_seen : ∀ (l : List Row) (seen : List String) (r : Row),
    r ∈ dedupAux seen l → dedupKey r ∉ seen := by
  intro l
  induction l with
  | nil => intro seen r h; simp [dedupAux] at h
  | cons a t ih =>
      intro seen r h
      by_cases ha : dedupKey a ∈ seen
      · rw [dedupAux, if_pos ha] at h
        exact ih seen r h
      · rw [dedupAux, if_neg ha] at h
        rcases List.mem_cons.mp h with h | h
        · subst h; exact ha
        · intro hc
          exact ih _ r h (List.mem_cons_of_mem _ hc)

theorem dedupAux_pairwise : ∀ (l : List Row) (seen : List String),
    (dedupAux seen l).Pairwise (fun a b => dedupKey a ≠ dedupKey b) := by
  intro l
  induction l with
  | nil => intro seen; simp [dedupAux]
  | cons a t ih =>
      intro seen
      by_cases ha : dedupKey a ∈ seen
      · rw [dedupAux, if_pos ha]; exact ih seen
      · rw [dedupAux, if_neg ha]
        refine List.pairwise_cons.mpr ⟨?_, ih _⟩
        intro b hb
        have := dedupAux_key_not_seen t (dedupKey a :: seen) b hb
        intro hc
        exact this (by rw [← hc]; exact List.mem_cons_self _ _)

theorem dedupAux_of_fresh : ∀ (l : List Row) (seen : List String),
    l.Pairwise (fun a b => dedupKey a ≠ dedupKey b) →
    (∀ r ∈ l, dedupKey r ∉ seen) → dedupAux seen l = l := by
  intro l
  induction l with
  | nil => intro seen _ _; rfl
  | cons a t ih =>
      intro seen hpw hfresh
      have ha : dedupKey a ∉ seen := hfresh a (List.mem_cons_self _ _)
      rw [dedupAux, if_neg ha]
      congr 1
      refine ih _ (List.Pairwise.of_cons hpw) ?_
      intro r hr
      intro hc
      rcases List.mem_cons.mp hc with hc | hc
      · exact (List.pairwise_cons.mp hpw).1 r hr hc.symm
      · exact hfresh r (List.mem_cons_of_mem _ hr) hc

theorem dedupAux_sublist : ∀ (l : List Row) (seen : List String),
    (dedupAux seen l).Sublist l := by
  intro l
  induction l with
  | nil => intro seen; simp [dedupAux]
  | cons a t ih =>
      intro seen
      by_cases ha : dedupKey a ∈ seen
      · rw [dedupAux, if_pos ha]
        exact (ih seen).cons a
      · rw [dedupAux, if_neg ha]
        exact (ih _).cons₂ a

/-- C5: one dedup pass leaves pairwise-distinct description keys, so a
second pass deletes nothing: the Deduplicator is idempotent.  (The key of
a row is its trimmed description cell, empty string for a blank cell.) -/
theorem C5_dedup_idempotent (data : List Row) :
    dedupRows (dedupRows data) = dedupRows data
      ∧ (dedupRows data).Pairwise (fun a b => dedupKey a ≠ dedupKey b)
      ∧ (dedupRows data).Sublist data := by
  refine ⟨?_, dedupAux_pairwise data [], dedupAux_sublist data []⟩
  exact dedupAux_of_fresh _ [] (dedupAux_pairwise data []) (fun r _ => List.not_mem_nil _)

/-! ## C4: numeric degradation -/

/-- C4 counterexample: the Fuel-sum synthesizer does NOT coerce unparseable
text to zero — it degrades the whole sum to an empty cell, unlike the
zero-coercion the claim asserts (replacing the bad cell by `0` gives `5`). -/
theorem C4_counterexample :
    fuelSumVal (.str "abc") (.num 5) = .empty
      ∧ fuelSumVal (.num 0) (.num 5) = .num 5
      ∧ pyFloat? "abc" = none
      ∧ fuelSumVal (.str "abc") (.num 5) ≠ fuelSumVal (.num 0) (.num 5) := by
  refine ⟨by decide, ?_, by decide, ?_⟩
  · show CellVal.num (0 + 5) = CellVal.num 5
    norm_num
  · decide

/-- C4 amended: `safe_float` (used by the Unified-Fuel aggregator, the
category-total aggregator and the summary totals) coerces unparseable text
to zero, so such a row contributes nothing to any of the three totals; the
Fuel-sum synthesizer instead degrades the whole sum to an empty cell when
either operand is unparseable text. -/
theorem C4_amended (s : String)
    (h1 : pyFloat? (stripCommas (pyStrip s)) = none)
    (h2 : pyFloat? s = none) :
    safe_float (.str s) = 0
      ∧ (∀ (data : List Row) (r : Row) (k : CellVal), getC r 3 = .str s →
          uniVal (r :: data) k = uniVal data k)
      ∧ (∀ (data : List Row) (r : Row) (k : String), getC r 5 = .str s →
          catVal (r :: data) k = catVal data k)
      ∧ (∀ (ivCol : ℕ) (data : List Row) (r : Row) (k : String), getC r 5 = .str s →
          summaryVal ivCol (r :: data) k = summaryVal ivCol data k)
      ∧ (∀ e : CellVal, fuelSumVal (.str s) e = .empty) := by
  have hsf : safe_float (.str s) = 0 := by
    unfold safe_float
    by_cases hz : pyStrip s = ""
    · simp [hz]
    · simp [hz, h1]
  refine ⟨hsf, ?_, ?_, ?_, ?_⟩
  · intro data r k hr
    rw [uniVal_eq_sum, uniVal_eq_sum, List.filter_cons]
    by_cases hk : getC r 4 = k
    · simp [hk, hr, hsf]
    · simp [hk]
  · intro data r k hr
    rw [catVal_eq_sum, catVal_eq_sum, List.filter_cons]
    by_cases hk : cellStrip (getC r 0) = k
    · simp [hk, hr, hsf]
    · simp [hk]
  · intro ivCol data r k hr
    rw [summaryVal_eq_sum, summaryVal_eq_sum, List.filter_cons]
    by_cases hk : summaryKeyO ivCol r = some k
    · simp [hk, hr, hsf]
    · simp [hk]
  · intro e
    cases e <;> simp [fuelSumVal, pyFloatD?, h2]

/-- Witness for C4's amended statement at the unparseable text "abc". -/
theorem C4_amended_witness :
    safe_float (.str "abc") = 0 ∧ fuelSumVal (.str "abc") (.num 7) = .empty := by
  have h := C4_amended "abc" (by decide) (by decide)
  exact ⟨h.1, h.2.2.2.2 (.num 7)⟩

/-! ## C1: the fold invariant -/

theorem mem_regular_of_mem_canonical {x : String} (h : x ∈ canonicalSet) :
    x ∈ REGULAR_INTERVENTIONS := by
  simp only [canonicalSet, List.mem_cons, List.not_mem_nil, or_false] at h
  simp only [REGULAR_INTERVENTIONS, List.mem_cons, List.not_mem_nil, or_false]
  tauto

theorem regular_cases {x : String} (h : x ∈ REGULAR_INTERVENTIONS) :
    x ∈ canonicalSet ∨ x = "UN-OHCHR" := by
  simp only [REGULAR_INTERVENTIONS, List.mem_cons, List.not_mem_nil, or_false] at h
  simp only [canonicalSet, List.mem_cons, List.not_mem_nil, or_false]
  tauto

/-- After the alias pass no intervention cell normalises to `UN-OHCHR`:
the pass rewrites exactly the cells whose stripped uppercase text contains
that token, and a string trivially contains itself. -/
theorem cleanStr_of_ne_empty {v : CellVal} (h : v ≠ .empty) :
    cleanStr v = pyStrip (pyStr v) := by
  cases v with
  | empty => exact absurd rfl h
  | num q => rfl
  | str s => rfl

theorem alias_not_unohchr (ivCol : ℕ) (r : Row) :
    pyUpper (cleanStr (getC (aliasRow ivCol r) ivCol)) ≠ "UN-OHCHR" := by
  by_cases hv : getC r ivCol = .empty
  · rw [aliasRow, if_pos hv, hv]
    decide
  · rw [aliasRow, if_neg hv]
    by_cases hin : pyIn "UN-OHCHR" (pyUpper (pyStrip (pyStr (getC r ivCol)))) = true
    · rw [if_pos hin, getC_setC_self]
      decide
    · rw [if_neg hin]
      intro hc
      rw [cleanStr_of_ne_empty hv] at hc
      exact hin (by rw [hc]; exact pyIn_self _)

/-- C1: after the UN-OHCHR alias rewrite, the fold marks a record folded
exactly when its category is non-empty and outside the canonical set;
afterwards every final category is canonical or empty, and folded records
carry the fallback category `INGOs`. -/
theorem C1_fold_invariant (ivCol agCol : ℕ) (r : Row) :
    ((foldRow ivCol agCol (aliasRow ivCol r)).2 = true ↔
        (cleanStr (getC (aliasRow ivCol r) ivCol) ≠ "" ∧
          pyUpper (cleanStr (getC (aliasRow ivCol r) ivCol)) ∉ canonicalSet))
      ∧ (cleanStr (getC (foldRow ivCol agCol (aliasRow ivCol r)).1 ivCol) = "" ∨
          pyUpper (cleanStr (getC (foldRow ivCol agCol (aliasRow ivCol r)).1 ivCol)) ∈
            canonicalSet)
      ∧ ((foldRow ivCol agCol (aliasRow ivCol r)).2 = true →
          getC (foldRow ivCol agCol (aliasRow ivCol r)).1 ivCol = .str "INGOs") := by
  have hno := alias_not_unohchr ivCol r
  by_cases hc : cleanStr (getC (aliasRow ivCol r) ivCol) ≠ "" ∧
      pyUpper (cleanStr (getC (aliasRow ivCol r) ivCol)) ∉ REGULAR_INTERVENTIONS
  · rw [foldRow, if_pos hc]
    refine ⟨⟨fun _ => ⟨hc.1, fun hmem => hc.2 (mem_regular_of_mem_canonical hmem)⟩,
      fun _ => rfl⟩, ?_, fun _ => getC_setC_self _ _ _⟩
    rw [getC_setC_self]
    right
    decide
  · rw [foldRow, if_neg hc]
    have hreg : cleanStr (getC (aliasRow ivCol r) ivCol) = "" ∨
        pyUpper (cleanStr (getC (aliasRow ivCol r) ivCol)) ∈ REGULAR_INTERVENTIONS := by
      by_cases hne : cleanStr (getC (aliasRow ivCol r) ivCol) = ""
      · exact Or.inl hne
      · right
        by_contra hmem
        exact hc ⟨hne, hmem⟩
    refine ⟨⟨fun h => absurd h (by simp), ?_⟩, ?_, fun h => absurd h (by simp)⟩
    · rintro ⟨hne, hnc⟩
      exfalso
      rcases hreg with h | h
      · exact hne h
      · rcases regular_cases h with h | h
        · exact hnc h
        · exact hno h
    · rcases hreg with h | h
      · exact Or.inl h
      · rcases regular_cases h with h | h
        · exact Or.inr h
        · exact absurd h hno

/-- Witness: a concrete record with the non-canonical category " FOO " is
folded into `INGOs`. -/
theorem C1_witness :
    getC (foldRow 0 1 (aliasRow 0 [.str " FOO ", .str "Acme", .str "Z"])).1 0
      = .str "INGOs" :=
  (C1_fold_invariant 0 1 [.str " FOO ", .str "Acme", .str "Z"]).2.2 (by decide)

/-! ## C2: the Sort & Group Engine ordering -/

theorem claimOrder_iff (a b : RowData) : claimOrder a b ↔ rowLE a b := by
  simp only [claimOrder, rowLE, sortKey, Prod.Lex.le_iff, fuelRank, ite_self,
    neg_lt_neg_iff, neg_inj]

theorem origIndex_eq_of_sortKey_eq {a b : RowData} (h : sortKey a = sortKey b) :
    a.origIndex = b.origIndex := by
  simp only [sortKey, toLex_inj, Prod.mk.injEq] at h
  exact h.2.2.2

/-- Two sorted permutations of a list with pairwise-distinct original
indices coincide: the index tie-break makes the composite order total. -/
theorem sorted_perm_unique : ∀ {l₁ l₂ : List RowData}, l₁.Perm l₂ →
    l₁.Pairwise rowLE → l₂.Pairwise rowLE →
    l₁.Pairwise (fun a b => a.origIndex ≠ b.origIndex) → l₁ = l₂ := by
  intro l₁
  induction l₁ with
  | nil =>
      intro l₂ hp _ _ _
      exact (hp.symm.eq_nil).symm
  | cons a t ih =>
      intro l₂ hp hs1 hs2 hd
      cases l₂ with
      | nil => exact absurd hp.eq_nil (by simp)
      | cons b t₂ =>
          by_cases hab : a = b
          · subst hab
            rw [ih hp.cons_inv (List.Pairwise.of_cons hs1) (List.Pairwise.of_cons hs2)
              (List.Pairwise.of_cons hd)]
          · exfalso
            have hbt : b ∈ t := by
              rcases List.mem_cons.mp (hp.mem_iff.mpr (List.mem_cons_self b t₂)) with h | h
              · exact absurd h.symm hab
              · exact h
            have hat : a ∈ t₂ := by
              rcases List.mem_cons.mp (hp.mem_iff.mp (List.mem_cons_self a t)) with h | h
              · exact absurd h hab
              · exact h
            have h1 : rowLE a b := (List.pairwise_cons.mp hs1).1 b hbt
            have h2 : rowLE b a := (List.pairwise_cons.mp hs2).1 a hat
            exact (List.pairwise_cons.mp hd).1 b hbt
              (origIndex_eq_of_sortKey_eq (le_antisymm h1 h2))

/-- C2: the engine returns a permutation of the records ordered ascending
by the composite key — category text case-insensitively and
lexicographically, then folded rank (0 for genuine members of the fallback
category, 1 for folded ones, constantly 0 for categories folding never
targets), then group-unified fuel descending, then original row index —
and, the indices being pairwise distinct, that ordering determines the
output uniquely, so the row order is a deterministic function of the
input records. -/
theorem C2_sort_engine (rows : List RowData) :
    (sortRows rows).Perm rows
      ∧ (sortRows rows).Pairwise claimOrder
      ∧ (rows.Pairwise (fun a b => a.origIndex ≠ b.origIndex) →
          ∀ l, l.Perm rows → l.Pairwise claimOrder → l = sortRows rows) := by
  refine ⟨List.perm_insertionSort rowLE rows, ?_, ?_⟩
  · exact (List.sorted_insertionSort rowLE rows).imp (fun h => (claimOrder_iff _ _).mpr h)
  · intro hdist l hperm hsorted
    refine sorted_perm_unique (hperm.trans (List.perm_insertionSort rowLE rows).symm)
      (hsorted.imp (fun h => (claimOrder_iff _ _).mp h))
      (List.sorted_insertionSort rowLE rows) ?_
    exact ((List.Perm.pairwise_iff (fun h => Ne.symm h) hperm).mpr hdist)

/-- Witness: on two concrete records the unique sorted order is computed by
the engine (hypotheses discharged by evaluation). -/
theorem C2_witness :
    [RowData.mk 30 "ALPHA" false 3 (.str "k2") [],
      RowData.mk 20 "HEALTH" false 2 (.str "k1") []]
      = sortRows
          [RowData.mk 20 "HEALTH" false 2 (.str "k1") [],
            RowData.mk 30 "ALPHA" false 3 (.str "k2") []] :=
  (C2_sort_engine _).2.2 (by decide) _ (by decide) (by decide)

/-! ## C6: sort idempotence under fresh indices -/

theorem rowLE_iff_pref3 (a b : RowData) :
    rowLE a b ↔ (pref3 a < pref3 b ∨ (pref3 a = pref3 b ∧ a.origIndex ≤ b.origIndex)) := by
  simp only [rowLE, sortKey, pref3, Prod.Lex.le_iff, Prod.Lex.lt_iff, toLex_inj,
    Prod.mk.injEq]
  tauto

theorem mem_reindexFrom : ∀ (l : List RowData) (k : ℕ) (b : RowData),
    b ∈ reindexFrom k l → k ≤ b.origIndex ∧ ∃ a ∈ l, pref3 b = pref3 a := by
  intro l
  induction l with
  | nil => intro k b h; simp [reindexFrom] at h
  | cons a t ih =>
      intro k b h
      rcases List.mem_cons.mp h with h | h
      · subst h
        exact ⟨le_refl _, a, List.mem_cons_self _ _, rfl⟩
      · rcases ih (k + 1) b h with ⟨h1, a', ha', h2⟩
        exact ⟨le_trans (Nat.le_succ k) h1, a', List.mem_cons_of_mem _ ha', h2⟩

theorem reindexFrom_pairwise_rowLE : ∀ (l : List RowData) (k : ℕ),
    l.Pairwise (fun a b => pref3 a ≤ pref3 b) → (reindexFrom k l).Pairwise rowLE := by
  intro l
  induction l with
  | nil => intro k _; simp [reindexFrom]
  | cons a t ih =>
      intro k hpw
      rw [reindexFrom]
      refine List.pairwise_cons.mpr ⟨?_, ih (k + 1) (List.Pairwise.of_cons hpw)⟩
      intro b hb
      rcases mem_reindexFrom t (k + 1) b hb with ⟨hk, a', ha', hpe⟩
      have hle : pref3 ({ a with origIndex := k } : RowData) ≤ pref3 b := by
        rw [show pref3 ({ a with origIndex := k } : RowData) = pref3 a from rfl, hpe]
        exact (List.pairwise_cons.mp hpw).1 a' ha'
      rw [rowLE_iff_pref3]
      rcases lt_or_eq_of_le hle with h | h
      · exact Or.inl h
      · exact Or.inr ⟨h, le_trans (Nat.le_succ k) hk⟩

theorem reindexFrom_pairwise_ne : ∀ (l : List RowData) (k : ℕ),
    (reindexFrom k l).Pairwise (fun a b => a.origIndex ≠ b.origIndex) := by
  intro l
  induction l with
  | nil => intro k; simp [reindexFrom]
  | cons a t ih =>
      intro k
      rw [reindexFrom]
      refine List.pairwise_cons.mpr ⟨?_, ih (k + 1)⟩
      intro b hb
      have hk := (mem_reindexFrom t (k + 1) b hb).1
      intro hc
      rw [show ({ a with origIndex := k } : RowData).origIndex = k from rfl] at hc
      omega

theorem pairwise_pref3_of_rowLE (l : List RowData) (h : l.Pairwise rowLE) :
    l.Pairwise (fun a b => pref3 a ≤ pref3 b) := by
  refine h.imp ?_
  intro a b hab
  rcases (rowLE_iff_pref3 a b).mp hab with h | ⟨h, _⟩
  · exact le_of_lt h
  · exact le_of_eq h

/-- C6: re-running the Sort & Group Engine on its own output, with fresh
original indices assigned top to bottom as the sheet is re-read,
reproduces the row order identically — the composite key with index
tie-break is total, so an already-sorted table is a fixed point. -/
theorem C6_sort_deterministic (rows : List RowData) :
    sortRows (reindexFrom 2 (sortRows rows)) = reindexFrom 2 (sortRows rows) := by
  have hs : (sortRows rows).Pairwise rowLE := List.sorted_insertionSort rowLE rows
  exact List.Sorted.insertionSort_eq
    (reindexFrom_pairwise_rowLE _ 2 (pairwise_pref3_of_rowLE _ hs))

/-! ## Cell preservation through the categorizer -/

theorem getC_aliasRow_ne (ivCol j : ℕ) (r : Row) (h : j ≠ ivCol) :
    getC (aliasRow ivCol r) j = getC r j := by
  unfold aliasRow
  split_ifs with h1 h2
  · rfl
  · exact getC_setC_ne r ivCol j _ h
  · rfl

theorem getC_foldAgencyRow_ne (ivCol agCol j : ℕ) (r : Row) (h : j ≠ agCol) :
    getC (foldAgencyRow ivCol agCol r) j = getC r j := by
  unfold foldAgencyRow
  split_ifs with h1
  · rfl
  · exact getC_setC_ne r agCol j _ h

theorem getC_foldRow_ne (ivCol agCol j : ℕ) (r : Row) (h1 : j ≠ ivCol) (h2 : j ≠ agCol) :
    getC (foldRow ivCol agCol r).1 j = getC r j := by
  unfold foldRow
  split_ifs with hc
  · dsimp only
    rw [getC_setC_ne _ _ _ _ h1, getC_foldAgencyRow_ne _ _ _ _ h2]
  · rfl

theorem foldRow_fst_of_false (ivCol agCol : ℕ) (r : Row)
    (h : (foldRow ivCol agCol r).2 = false) : (foldRow ivCol agCol r).1 = r := by
  unfold foldRow at h ⊢
  by_cases hc : cleanStr (getC r ivCol) ≠ "" ∧
      pyUpper (cleanStr (getC r ivCol)) ∉ REGULAR_INTERVENTIONS
  · rw [if_pos hc] at h
    exact absurd h (by simp)
  · rw [if_neg hc]

theorem foldRow_snd_congr (ivCol agCol : ℕ) (r1 r2 : Row)
    (h : getC r1 ivCol = getC r2 ivCol) :
    (foldRow ivCol agCol r1).2 = (foldRow ivCol agCol r2).2 := by
  unfold foldRow
  rw [h]
  by_cases hc : cleanStr (getC r2 ivCol) ≠ "" ∧
      pyUpper (cleanStr (getC r2 ivCol)) ∉ REGULAR_INTERVENTIONS
  · rw [if_pos hc, if_pos hc]
  · rw [if_neg hc, if_neg hc]

theorem foldRow_iv_val (ivCol agCol : ℕ) (r : Row) :
    getC (foldRow ivCol agCol r).1 ivCol
      = if cleanStr (getC r ivCol) ≠ "" ∧
            pyUpper (cleanStr (getC r ivCol)) ∉ REGULAR_INTERVENTIONS then
          .str "INGOs"
        else getC r ivCol := by
  unfold foldRow
  split_ifs with hc
  · exact getC_setC_self _ _ _
  · rfl

theorem aliasRow_iv_congr (ivCol : ℕ) (r1 r2 : Row)
    (h : getC r1 ivCol = getC r2 ivCol) :
    getC (aliasRow ivCol r1) ivCol = getC (aliasRow ivCol r2) ivCol := by
  unfold aliasRow
  rw [h]
  by_cases h1 : getC r2 ivCol = .empty
  · rw [if_pos h1, if_pos h1, h, h1]
  · rw [if_neg h1, if_neg h1]
    by_cases h2 : pyIn "UN-OHCHR" (pyUpper (pyStrip (pyStr (getC r2 ivCol)))) = true
    · rw [if_pos h2, if_pos h2, getC_setC_self, getC_setC_self]
    · rw [if_neg h2, if_neg h2, h]

theorem renameRow_of_not_logistics (ivCol : ℕ) (r : Row)
    (h : norm_intervention (getC r ivCol) ≠ "LOGISTICS") : renameRow ivCol r = r := by
  unfold renameRow
  split_ifs with h1 h2
  · rfl
  · exfalso
    apply h
    rcases hv : getC r ivCol with _ | q | s
    · exact absurd hv h1
    · rw [hv] at h2; exact h2
    · rw [hv] at h2; exact h2
  · rfl

theorem getC_renameRow_ne (ivCol j : ℕ) (r : Row) (h : j ≠ ivCol) :
    getC (renameRow ivCol r) j = getC r j := by
  unfold renameRow
  split_ifs with h1 h2
  · rfl
  · exact getC_setC_ne r ivCol j _ h
  · rfl

/-! ## C3: description-key stability -/

/-- C3 counterexample: a record with the non-canonical category `FOO` has
its captured description key ("FOO,Acme,Z", stored in column E at
synthesis time and still there afterwards), but the categorization fold
rewrites the category and agency fields — the first columns of the row —
so recomputing the concatenation rule on the final row no longer yields
the captured key. -/
theorem C3_counterexample :
    getC [CellVal.str "FOO", .str "Acme", .str "Z", .num 10, .str "FOO,Acme,Z", .num 10] 4
        = .str (descConcat [CellVal.str "FOO", .str "Acme", .str "Z", .num 10,
            .str "FOO,Acme,Z", .num 10])
      ∧ getC (foldRow 0 1 (aliasRow 0 [CellVal.str "FOO", .str "Acme", .str "Z", .num 10,
            .str "FOO,Acme,Z", .num 10])).1 4
          = .str "FOO,Acme,Z"
      ∧ CellVal.str (descConcat (foldRow 0 1 (aliasRow 0 [CellVal.str "FOO", .str "Acme",
            .str "Z", .num 10, .str "FOO,Acme,Z", .num 10])).1)
          ≠ .str "FOO,Acme,Z" := by
  refine ⟨by decide, by decide, by decide⟩

/-- C3 amended: the stored description-key cell (column E) is preserved by
the categorization fold (which writes only the intervention and agency
columns), the sort (a permutation of whole records), the dedup (which
deletes whole rows) and the LOGISTICS rename; recomputing the
concatenation rule agrees with the captured key exactly for the rows the
categorizer and the rename left untouched. -/
theorem C3_amended :
    (∀ (ivCol agCol : ℕ) (r : Row), ivCol ≠ 4 → agCol ≠ 4 →
        getC (foldRow ivCol agCol (aliasRow ivCol r)).1 4 = getC r 4)
      ∧ (∀ rds : List RowData, (sortRows rds).Perm rds)
      ∧ (∀ data : List Row, (dedupRows data).Sublist data)
      ∧ (∀ (ivCol : ℕ) (r : Row), ivCol ≠ 4 →
          getC (renameRow ivCol r) 4 = getC r 4)
      ∧ (∀ (ivCol agCol : ℕ) (r : Row), aliasRow ivCol r = r →
          (foldRow ivCol agCol r).2 = false →
          norm_intervention (getC r ivCol) ≠ "LOGISTICS" →
          renameRow ivCol (foldRow ivCol agCol (aliasRow ivCol r)).1 = r) := by
  refine ⟨?_, fun rds => List.perm_insertionSort rowLE rds,
    fun data => dedupAux_sublist data [], ?_, ?_⟩
  · intro ivCol agCol r hiv hag
    rw [getC_foldRow_ne _ _ _ _ (Ne.symm hiv) (Ne.symm hag),
      getC_aliasRow_ne _ _ _ (Ne.symm hiv)]
  · intro ivCol r hiv
    exact getC_renameRow_ne _ _ _ (Ne.symm hiv)
  · intro ivCol agCol r halias hflag hlog
    rw [halias, foldRow_fst_of_false _ _ _ hflag]
    exact renameRow_of_not_logistics _ _ hlog

/-- Witness for the amended C3 at concrete rows: key-cell preservation for
a folded row, and full row stability for an untouched canonical row. -/
theorem C3_amended_witness :
    getC (foldRow 0 1 (aliasRow 0 [CellVal.str "FOO", .str "Acme", .str "Z", .num 10,
          .str "FOO,Acme,Z", .num 10])).1 4
        = getC [CellVal.str "FOO", .str "Acme", .str "Z", .num 10,
            .str "FOO,Acme,Z", .num 10] 4
      ∧ renameRow 0 (foldRow 0 1 (aliasRow 0 [CellVal.str "HEALTH", .str "Acme",
            .str "Z"])).1
          = [CellVal.str "HEALTH", .str "Acme", .str "Z"] :=
  ⟨C3_amended.1 0 1 _ (by decide) (by decide),
    C3_amended.2.2.2.2 0 1 _ (by decide) (by decide) (by decide)⟩

/-! ## C7: the duplicate-keys scenario -/

theorem foldRow_iv_congr (ivCol agCol : ℕ) (r1 r2 : Row)
    (h : getC r1 ivCol = getC r2 ivCol) :
    getC (foldRow ivCol agCol r1).1 ivCol = getC (foldRow ivCol agCol r2).1 ivCol := by
  rw [foldRow_iv_val, foldRow_iv_val, h]

theorem uniVal_pair_same_key (a b : Row) (h : getC a 4 = getC b 4) :
    uniVal [a, b] (getC a 4) = safe_float (getC a 3) + safe_float (getC b 3) := by
  rw [uniVal_eq_sum]
  simp [List.filter_cons, h]

/-- C7: two data rows in the same category with identical description keys
and per-row fuel sums 20 and 15 (in that order).  The Unified-Fuel stage
gives both rows the group total 35, the sort ties on every component but
the original index, so the first row stays first, and the dedup pass keeps
exactly that first-encountered row — the one whose fuel sum was 20. -/
theorem C7_scenario (ivCol agCol : ℕ) (hiv : ivCol < 3) (hag : agCol < 3)
    (hdr r1 r2 : Row)
    (hcat : getC r1 ivCol = getC r2 ivCol)
    (hkey : getC r1 4 = getC r2 4)
    (hf1 : getC r1 3 = .num 20) (hf2 : getC r2 3 = .num 15) :
    dedupRows ((sortStage ivCol agCol (uniStage [hdr, r1, r2])).1.drop 1)
        = [(foldRow ivCol agCol (aliasRow ivCol
            (setC (List.insertIdx 5 CellVal.empty r1) 5 (.num 35)))).1]
      ∧ getC (foldRow ivCol agCol (aliasRow ivCol
            (setC (List.insertIdx 5 CellVal.empty r1) 5 (.num 35)))).1 3 = .num 20 := by
  have hiv3 : (3 : ℕ) ≠ ivCol := by omega
  have hiv4 : (4 : ℕ) ≠ ivCol := by omega
  have hiv5 : (5 : ℕ) ≠ ivCol := by omega
  have hag3 : (3 : ℕ) ≠ agCol := by omega
  have hag4 : (4 : ℕ) ≠ agCol := by omega
  have hag5 : (5 : ℕ) ≠ agCol := by omega
  set i1 := List.insertIdx 5 CellVal.empty r1 with hi1
  set i2 := List.insertIdx 5 CellVal.empty r2 with hi2
  have hk1 : getC i1 4 = getC r1 4 := getC_insertIdx_lt r1 5 4 _ (by omega)
  have hk2 : getC i2 4 = getC r2 4 := getC_insertIdx_lt r2 5 4 _ (by omega)
  have hfu1 : getC i1 3 = .num 20 := (getC_insertIdx_lt r1 5 3 _ (by omega)).trans hf1
  have hfu2 : getC i2 3 = .num 15 := (getC_insertIdx_lt r2 5 3 _ (by omega)).trans hf2
  have hcat' : getC i1 ivCol = getC i2 ivCol := by
    rw [hi1, hi2, getC_insertIdx_lt r1 5 ivCol _ (by omega),
      getC_insertIdx_lt r2 5 ivCol _ (by omega)]
    exact hcat
  have hkk : getC i1 4 = getC i2 4 := by rw [hk1, hk2, hkey]
  have hT1 : uniVal [i1, i2] (getC i1 4) = 35 := by
    rw [uniVal_pair_same_key i1 i2 hkk, hfu1, hfu2]
    norm_num [safe_float]
  have hT2 : uniVal [i1, i2] (getC i2 4) = 35 := by
    rw [← hkk]
    exact hT1
  have hdrop : (uniStage [hdr, r1, r2]).drop 1
      = [setC i1 5 (.num 35), setC i2 5 (.num 35)] := by
    show [setC i1 5 (.num (uniVal [i1, i2] (getC i1 4))),
        setC i2 5 (.num (uniVal [i1, i2] (getC i2 4)))]
      = [setC i1 5 (.num 35), setC i2 5 (.num 35)]
    rw [hT1, hT2]
  have hsheet : (sortStage ivCol agCol (uniStage [hdr, r1, r2])).1.drop 1
      = (sortRows (categorizeRows ivCol agCol ((uniStage [hdr, r1, r2]).drop 1))).map
          (·.row) := rfl
  rw [hsheet, hdrop]
  set R1 := setC i1 5 (CellVal.num 35) with hR1
  set R2 := setC i2 5 (CellVal.num 35) with hR2
  have hRiv : getC R1 ivCol = getC R2 ivCol := by
    rw [hR1, hR2, getC_setC_ne _ _ _ _ (Ne.symm hiv5), getC_setC_ne _ _ _ _ (Ne.symm hiv5)]
    exact hcat'
  have hcatrows : categorizeRows ivCol agCol [R1, R2]
      = [buildRowData ivCol agCol 2 (aliasRow ivCol R1),
         buildRowData ivCol agCol 3 (aliasRow ivCol R2)] := rfl
  rw [hcatrows]
  set A1 := aliasRow ivCol R1 with hA1
  set A2 := aliasRow ivCol R2 with hA2
  have hAiv : getC A1 ivCol = getC A2 ivCol := aliasRow_iv_congr ivCol R1 R2 hRiv
  have hA1_5 : getC A1 5 = .num 35 := by
    rw [hA1, getC_aliasRow_ne _ _ _ hiv5, hR1, getC_setC_self]
  have hA2_5 : getC A2 5 = .num 35 := by
    rw [hA2, getC_aliasRow_ne _ _ _ hiv5, hR2, getC_setC_self]
  have hA1_4 : getC A1 4 = getC r1 4 := by
    rw [hA1, getC_aliasRow_ne _ _ _ hiv4, hR1, getC_setC_ne _ _ _ _ (by omega), hk1]
  have hA2_4 : getC A2 4 = getC r1 4 := by
    rw [hA2, getC_aliasRow_ne _ _ _ hiv4, hR2, getC_setC_ne _ _ _ _ (by omega), hk2, hkey]
  have hA1_3 : getC A1 3 = .num 20 := by
    rw [hA1, getC_aliasRow_ne _ _ _ hiv3, hR1, getC_setC_ne _ _ _ _ (by omega), hfu1]
  set rd1 := buildRowData ivCol agCol 2 A1 with hrd1
  set rd2 := buildRowData ivCol agCol 3 A2 with hrd2
  have hw1_4 : getC rd1.row 4 = getC r1 4 := by
    rw [hrd1]
    show getC (foldRow ivCol agCol A1).1 4 = getC r1 4
    rw [getC_foldRow_ne _ _ _ _ hiv4 hag4, hA1_4]
  have hw2_4 : getC rd2.row 4 = getC r1 4 := by
    rw [hrd2]
    show getC (foldRow ivCol agCol A2).1 4 = getC r1 4
    rw [getC_foldRow_ne _ _ _ _ hiv4 hag4, hA2_4]
  have hw1_3 : getC rd1.row 3 = .num 20 := by
    rw [hrd1]
    show getC (foldRow ivCol agCol A1).1 3 = .num 20
    rw [getC_foldRow_ne _ _ _ _ hiv3 hag3, hA1_3]
  have hint : rd1.intervention = rd2.intervention := by
    rw [hrd1, hrd2]
    show cleanStr (getC (foldRow ivCol agCol A1).1 ivCol)
      = cleanStr (getC (foldRow ivCol agCol A2).1 ivCol)
    rw [foldRow_iv_congr ivCol agCol A1 A2 hAiv]
  have hconv : rd1.isConverted = rd2.isConverted := by
    rw [hrd1, hrd2]
    show (foldRow ivCol agCol A1).2 = (foldRow ivCol agCol A2).2
    exact foldRow_snd_congr ivCol agCol A1 A2 hAiv
  have hfuel : rd1.fuel = rd2.fuel := by
    rw [hrd1, hrd2]
    show safe_float (getC (foldRow ivCol agCol A1).1 5)
      = safe_float (getC (foldRow ivCol agCol A2).1 5)
    rw [getC_foldRow_ne _ _ _ _ hiv5 hag5, getC_foldRow_ne _ _ _ _ hiv5 hag5, hA1_5, hA2_5]
  have hpref : pref3 rd1 = pref3 rd2 := by
    simp only [pref3, ivLow, convRank, fuelRank, hint, hconv, hfuel]
  have hle : rowLE rd1 rd2 := by
    rw [rowLE_iff_pref3]
    right
    refine ⟨hpref, ?_⟩
    rw [hrd1, hrd2]
    show (2 : ℕ) ≤ 3
    omega
  have hsort : sortRows [rd1, rd2] = [rd1, rd2] := by
    unfold sortRows
    simp only [List.insertionSort, List.orderedInsert]
    rw [if_pos hle]
  rw [hsort]
  have hkeq : dedupKey rd2.row = dedupKey rd1.row := by
    unfold dedupKey
    rw [hw1_4, hw2_4]
  constructor
  · show dedupRows [rd1.row, rd2.row] = [rd1.row]
    unfold dedupRows
    rw [dedupAux, if_neg (List.not_mem_nil _),
      dedupAux, if_pos (by rw [hkeq]; exact List.mem_cons_self _ _), dedupAux]
  · show getC rd1.row 3 = .num 20
    exact hw1_3

/-! ## C10: the LOGISTICS → UN Agencies rename -/

theorem norm_intervention_of_ne_empty {v : CellVal} (h : v ≠ .empty) :
    norm_intervention v = pyUpper (pyStrip (pyStr v)) := by
  cases v with
  | empty => exact absurd rfl h
  | num q => rfl
  | str s => rfl

theorem norm_eq_upper_strip (v : CellVal) : norm_intervention v = pyUpper (cellStrip v) := by
  cases v with
  | empty => decide
  | num q => rfl
  | str s => rfl

theorem keyO_eq_logistics_iff (ivCol : ℕ) (r : Row) :
    summaryKeyO ivCol r = some "LOGISTICS"
      ↔ norm_intervention (getC r ivCol) = "LOGISTICS" := by
  rw [norm_eq_upper_strip]
  unfold summaryKeyO
  by_cases h : cellStrip (getC r ivCol) = ""
  · rw [if_pos h, h]
    constructor
    · intro hc; exact absurd hc (by simp)
    · intro hc; exact absurd hc (by decide)
  · rw [if_neg h]
    simp

theorem renameRow_of_logistics (ivCol : ℕ) (r : Row)
    (h : norm_intervention (getC r ivCol) = "LOGISTICS") :
    renameRow ivCol r = setC r ivCol (.str "UN Agencies") := by
  have hv : getC r ivCol ≠ .empty := by
    intro hc
    rw [hc] at h
    exact absurd h (by decide)
  unfold renameRow
  rw [if_neg hv, if_pos (by rw [← norm_intervention_of_ne_empty hv]; exact h)]

theorem keyO_renamed_logistics (ivCol : ℕ) (r : Row)
    (h : norm_intervention (getC r ivCol) = "LOGISTICS") :
    summaryKeyO ivCol (renameRow ivCol r) = some "UN AGENCIES" := by
  rw [renameRow_of_logistics _ _ h]
  unfold summaryKeyO
  rw [getC_setC_self]
  decide

theorem rename_sum_UA (ivCol : ℕ) (hiv : ivCol ≠ 5) : ∀ data : List Row,
    (((data.map (renameRow ivCol)).filter
        (fun r => summaryKeyO ivCol r = some "UN AGENCIES")).map
      (fun r => safe_float (getC r 5))).sum
      = ((data.filter (fun r => summaryKeyO ivCol r = some "UN AGENCIES")).map
          (fun r => safe_float (getC r 5))).sum
        + ((data.filter (fun r => summaryKeyO ivCol r = some "LOGISTICS")).map
            (fun r => safe_float (getC r 5))).sum := by
  intro data
  induction data with
  | nil => simp
  | cons r t ih =>
      by_cases hl : norm_intervention (getC r ivCol) = "LOGISTICS"
      · have hk1 := keyO_renamed_logistics ivCol r hl
        have hk2 := (keyO_eq_logistics_iff ivCol r).mpr hl
        have hval : safe_float (getC (renameRow ivCol r) 5) = safe_float (getC r 5) := by
          rw [getC_renameRow_ne _ _ _ (Ne.symm hiv)]
        simp only [List.map_cons, List.filter_cons, hk1, hk2]
        simp [hval, ih]
        ring
      · have hr : renameRow ivCol r = r := renameRow_of_not_logistics _ _ hl
        have hk2 : ¬ (summaryKeyO ivCol r = some "LOGISTICS") :=
          fun hc => hl ((keyO_eq_logistics_iff ivCol r).mp hc)
        simp only [List.map_cons, hr, List.filter_cons]
        by_cases hua : summaryKeyO ivCol r = some "UN AGENCIES"
        · simp [hua, hk2, ih]
          ring
        · simp [hua, hk2, ih]

theorem rename_sum_LOG (ivCol : ℕ) : ∀ data : List Row,
    (((data.map (renameRow ivCol)).filter
        (fun r => summaryKeyO ivCol r = some "LOGISTICS")).map
      (fun r => safe_float (getC r 5))).sum = 0 := by
  intro data
  induction data with
  | nil => simp
  | cons r t ih =>
      by_cases hl : norm_intervention (getC r ivCol) = "LOGISTICS"
      · have hk1 := keyO_renamed_logistics ivCol r hl
        simp [List.filter_cons, hk1, ih]
      · have hr : renameRow ivCol r = r := renameRow_of_not_logistics _ _ hl
        have hk2 : ¬ (summaryKeyO ivCol r = some "LOGISTICS") :=
          fun hc => hl ((keyO_eq_logistics_iff ivCol r).mp hc)
        simp [List.filter_cons, hr, hk2, ih]

/-- C10: after the category-total merge, the rename pass rewrites every row
whose intervention normalises to LOGISTICS to "UN Agencies", so the final
table has no LOGISTICS row and the summary projector accumulates the
former LOGISTICS fuel under the UN AGENCIES key (whose LOGISTICS total is
then zero). -/
theorem C10_logistics_rename (ivCol : ℕ) (hiv : ivCol ≠ 5) (data : List Row) :
    (∀ r ∈ data, norm_intervention (getC r ivCol) = "LOGISTICS" →
        getC (renameRow ivCol r) ivCol = .str "UN Agencies")
      ∧ (∀ r ∈ data.map (renameRow ivCol),
          norm_intervention (getC r ivCol) ≠ "LOGISTICS")
      ∧ summaryVal ivCol (data.map (renameRow ivCol)) "UN AGENCIES"
          = summaryVal ivCol data "UN AGENCIES" + summaryVal ivCol data "LOGISTICS"
      ∧ summaryVal ivCol (data.map (renameRow ivCol)) "LOGISTICS" = 0 := by
  refine ⟨?_, ?_, ?_, ?_⟩
  · intro r _ h
    rw [renameRow_of_logistics _ _ h, getC_setC_self]
  · intro r hr
    obtain ⟨r0, _, rfl⟩ := List.mem_map.mp hr
    by_cases hl : norm_intervention (getC r0 ivCol) = "LOGISTICS"
    · rw [renameRow_of_logistics _ _ hl, getC_setC_self]
      decide
    · rw [renameRow_of_not_logistics _ _ hl]
      exact hl
  · rw [summaryVal_eq_sum, summaryVal_eq_sum, summaryVal_eq_sum]
    exact rename_sum_UA ivCol hiv data
  · rw [summaryVal_eq_sum]
    exact rename_sum_LOG ivCol data

/-- Witness for C10 on a concrete two-row table. -/
theorem C10_witness :
    summaryVal 0 ([[CellVal.str "LOGISTICS", .empty, .empty, .empty, .empty, .num 7],
        [CellVal.str "WASH", .empty, .empty, .empty, .empty, .num 3]].map (renameRow 0))
        "UN AGENCIES"
      = summaryVal 0 [[CellVal.str "LOGISTICS", .empty, .empty, .empty, .empty, .num 7],
          [CellVal.str "WASH", .empty, .empty, .empty, .empty, .num 3]] "UN AGENCIES"
        + summaryVal 0 [[CellVal.str "LOGISTICS", .empty, .empty, .empty, .empty, .num 7],
            [CellVal.str "WASH", .empty, .empty, .empty, .empty, .num 3]] "LOGISTICS" :=
  (C10_logistics_rename 0 (by decide) _).2.2.1

/-- Witness for C7 at concrete rows (fuel sums 20 then 15, equal keys). -/
theorem C7_witness :
    dedupRows ((sortStage 0 1 (uniStage [[CellVal.str "H"],
        [CellVal.str "HEALTH", .str "A1", .str "x", .num 20, .str "A,B,C"],
        [CellVal.str "HEALTH", .str "A2", .str "y", .num 15, .str "A,B,C"]])).1.drop 1)
        = [(foldRow 0 1 (aliasRow 0 (setC (List.insertIdx 5 CellVal.empty
            [CellVal.str "HEALTH", .str "A1", .str "x", .num 20, .str "A,B,C"]) 5
            (.num 35)))).1]
      ∧ getC (foldRow 0 1 (aliasRow 0 (setC (List.insertIdx 5 CellVal.empty
            [CellVal.str "HEALTH", .str "A1", .str "x", .num 20, .str "A,B,C"]) 5
            (.num 35)))).1 3 = .num 20 :=
  C7_scenario 0 1 (by decide) (by decide) [CellVal.str "H"]
    [CellVal.str "HEALTH", .str "A1", .str "x", .num 20, .str "A,B,C"]
    [CellVal.str "HEALTH", .str "A2", .str "y", .num 15, .str "A,B,C"]
    (by decide) (by decide) (by decide) (by decide)

/-! ## C8: error conditions of the full pipeline -/

theorem orderTasks_eq_nil_iff (ts : List Task) : orderTasks ts = [] ↔ ts = [] := by
  constructor
  · intro h
    cases ts with
    | nil => rfl
    | cons a t =>
        exfalso
        rcases List.append_eq_nil.mp h with ⟨h1, h2⟩
        by_cases ha : a.kind = "UNOPS"
        · rw [List.filter_cons] at h1
          simp [ha] at h1
        · rw [List.filter_cons] at h2
          simp [ha] at h2
  · intro h
    rw [h]
    rfl

/-- C8: the assembled pipeline fails with a reported error in exactly two
situations — no upload yields a recognisable target sheet (so no tasks
remain), or the AGENCY header is absent from the combined sheet at the
moment the header search runs.  Unreadable uploads, uploads without data
rows and unparseable cells merely degrade; the calculation phase's own
target-sheet recheck never fires because the combiner always titles its
sheet "Distribution Summary". -/
theorem C8_error_conditions (us : List Upload) :
    (∃ e, runPipeline us = .error e) ↔
      (mkTasks us = [] ∨
        ∃ sheet, build_combined_workbook us = .ok ("Distribution Summary", sheet) ∧
          agColOf (s9of sheet) = none) := by
  by_cases h : (orderTasks (mkTasks us)).isEmpty = true
  · have hbc : build_combined_workbook us = .error "No valid files found." := by
      unfold build_combined_workbook
      rw [if_pos h]
    have hrp : runPipeline us = .error "No valid files found." := by
      unfold runPipeline
      rw [hbc]
    rw [hrp]
    exact iff_of_true ⟨_, rfl⟩
      (Or.inl ((orderTasks_eq_nil_iff _).mp (List.isEmpty_iff.mp h)))
  · rw [Bool.not_eq_true] at h
    have hbc : build_combined_workbook us
        = .ok ("Distribution Summary", combineAll (orderTasks (mkTasks us))) := by
      unfold build_combined_workbook
      rw [if_neg (by simp [h])]
    have hrp : runPipeline us
        = run_calculations "Distribution Summary" (combineAll (orderTasks (mkTasks us))) := by
      unfold runPipeline
      rw [hbc]
    have htitle : pyStrip "Distribution Summary" = "Distribution Summary" := by decide
    have hmk : mkTasks us ≠ [] := by
      intro hc
      rw [hc] at h
      simp [orderTasks] at h
    cases hag : agColOf (s9of (combineAll (orderTasks (mkTasks us)))) with
    | none =>
        have hrc : run_calculations "Distribution Summary"
            (combineAll (orderTasks (mkTasks us))) = .error "Header AGENCY not found." := by
          unfold run_calculations
          rw [if_pos htitle, hag]
        rw [hrp, hrc]
        exact iff_of_true ⟨_, rfl⟩ (Or.inr ⟨_, hbc, hag⟩)
    | some ag =>
        have hrc : run_calculations "Distribution Summary"
            (combineAll (orderTasks (mkTasks us)))
            = .ok (calcTail (ivColOf (s9of (combineAll (orderTasks (mkTasks us))))) ag
                (s9of (combineAll (orderTasks (mkTasks us))))) := by
          unfold run_calculations
          rw [if_pos htitle, hag]
        rw [hrp, hrc]
        apply iff_of_false
        · rintro ⟨e, he⟩
          exact absurd he (by simp)
        · rintro (hmk0 | ⟨sheet', hok, hnone⟩)
          · exact hmk hmk0
          · rw [hbc] at hok
            obtain ⟨-, rfl⟩ :
                "Distribution Summary" = "Distribution Summary"
                  ∧ combineAll (orderTasks (mkTasks us)) = sheet' := by
              simpa using hok
            exact Option.noConfusion (hag.symm.trans hnone)

/-- Witness for C8: a single unreadable upload leaves no tasks, so the
pipeline reports the fatal no-valid-files error. -/
theorem C8_witness : ∃ e, runPipeline [Upload.bad] = Except.error e :=
  (C8_error_conditions [Upload.bad]).mpr (Or.inl (by decide))

/-! ## C9: the Merge-Region Normalizer -/

theorem unmergeOne_grid_covered {π : Type} (ws : WSheet π) (m : MergeRange) {r c : ℕ}
    (h : covers m r c) : (unmergeOne ws m).grid r c = ws.grid m.minRow m.minCol := by
  unfold unmergeOne
  exact if_pos h

theorem unmergeOne_grid_uncovered {π : Type} (ws : WSheet π) (m : MergeRange) {r c : ℕ}
    (h : ¬ covers m r c) : (unmergeOne ws m).grid r c = ws.grid r c := by
  unfold unmergeOne
  exact if_neg h

theorem covers_self_of_covers {m : MergeRange} {r c : ℕ} (h : covers m r c) :
    covers m m.minRow m.minCol :=
  ⟨le_refl _, le_trans h.1 h.2.1, le_refl _, le_trans h.2.2.1 h.2.2.2⟩

theorem mrDisjoint_not_both {a b : MergeRange} (hd : mrDisjoint a b) {r c : ℕ} :
    ¬ (covers a r c ∧ covers b r c) := by
  rintro ⟨⟨a1, a2, a3, a4⟩, b1, b2, b3, b4⟩
  rcases hd with h | h | h | h <;> omega

theorem fold_grid_untouched {π : Type} : ∀ (ms : List MergeRange) (ws : WSheet π) (r c : ℕ),
    (∀ m ∈ ms, ¬ covers m r c) → (ms.foldl unmergeOne ws).grid r c = ws.grid r c := by
  intro ms
  induction ms with
  | nil => intro ws r c _; rfl
  | cons m t ih =>
      intro ws r c h
      rw [List.foldl_cons,
        ih (unmergeOne ws m) r c (fun m' hm' => h m' (List.mem_cons_of_mem _ hm'))]
      exact unmergeOne_grid_uncovered ws m (h m (List.mem_cons_self _ _))

theorem fold_grid_covered {π : Type} : ∀ (ms : List MergeRange) (ws : WSheet π),
    ms.Pairwise mrDisjoint →
    ∀ m ∈ ms, ∀ r c : ℕ, covers m r c →
      (ms.foldl unmergeOne ws).grid r c = ws.grid m.minRow m.minCol := by
  intro ms
  induction ms with
  | nil => intro ws _ m hm; simp at hm
  | cons m0 t ih =>
      intro ws hpw m hm r c hcov
      rw [List.foldl_cons]
      rcases List.mem_cons.mp hm with rfl | hmt
      · have htl : ∀ m' ∈ t, ¬ covers m' r c := fun m' hm' hc =>
          mrDisjoint_not_both ((List.pairwise_cons.mp hpw).1 m' hm') ⟨hcov, hc⟩
        rw [fold_grid_untouched t (unmergeOne ws m) r c htl]
        exact unmergeOne_grid_covered ws m hcov
      · rw [ih (unmergeOne ws m0) (List.Pairwise.of_cons hpw) m hmt r c hcov]
        apply unmergeOne_grid_uncovered
        intro hc
        exact mrDisjoint_not_both ((List.pairwise_cons.mp hpw).1 m hmt)
          ⟨hc, covers_self_of_covers hcov⟩

theorem fold_merges {π : Type} : ∀ (ms : List MergeRange) (ws : WSheet π),
    (ms.foldl unmergeOne ws).merges = ms.foldl List.erase ws.merges := by
  intro ms
  induction ms with
  | nil => intro ws; rfl
  | cons m t ih =>
      intro ws
      rw [List.foldl_cons, List.foldl_cons]
      exact ih (unmergeOne ws m)

theorem foldl_erase_not_mem {α : Type} [DecidableEq α] :
    ∀ (ps : List α) (a : α) (l : List α), (∀ x ∈ ps, x ≠ a) →
      ps.foldl List.erase (a :: l) = a :: ps.foldl List.erase l := by
  intro ps
  induction ps with
  | nil => intro a l _; rfl
  | cons x ps ih =>
      intro a l h
      have hxa : ¬ (a = x) := fun hc => h x (List.mem_cons_self _ _) hc.symm
      rw [List.foldl_cons, List.foldl_cons, List.erase_cons_tail (by simp [hxa])]
      exact ih a (l.erase x) (fun y hy => h y (List.mem_cons_of_mem _ hy))

theorem foldl_erase_filter {α : Type} [DecidableEq α] :
    ∀ (l : List α) (p : α → Bool), l.Nodup →
      (l.filter p).foldl List.erase l = l.filter (fun a => !(p a)) := by
  intro l
  induction l with
  | nil => intro p _; rfl
  | cons a t ih =>
      intro p hnd
      by_cases hp : p a = true
      · rw [List.filter_cons, if_pos hp, List.foldl_cons, List.erase_cons_head,
          ih p (List.Nodup.of_cons hnd), List.filter_cons, if_neg (by simp [hp])]
      · have ha : a ∉ t := (List.nodup_cons.mp hnd).1
        rw [List.filter_cons, if_neg hp,
          foldl_erase_not_mem (t.filter p) a t
            (fun x hx hc => ha (hc ▸ List.mem_of_mem_filter hx)),
          ih p (List.Nodup.of_cons hnd), List.filter_cons,
          if_pos (by simp [hp])]

/-- C9: processing a column range dissolves exactly the merged regions
whose column span intersects it, writes each such region's captured
top-left value and presentation into every covered cell, leaves every
other cell untouched, and a second run is a no-op because no merged
region intersecting the range remains.  (The hypotheses state openpyxl's
invariants: the merge list has no duplicates and regions never share a
cell.) -/
theorem C9_unmerge_and_fill {π : Type} (lo hi : ℕ) (ws : WSheet π)
    (hnd : ws.merges.Nodup) (hdisj : ws.merges.Pairwise mrDisjoint) :
    ((unmerge_and_fill lo hi ws).merges
        = ws.merges.filter (fun m => !(mrIntersects lo hi m)))
      ∧ (∀ m ∈ ws.merges, mrIntersects lo hi m = true → ∀ r c : ℕ, covers m r c →
          (unmerge_and_fill lo hi ws).grid r c = ws.grid m.minRow m.minCol)
      ∧ (∀ r c : ℕ, (∀ m ∈ ws.merges, mrIntersects lo hi m = true → ¬ covers m r c) →
          (unmerge_and_fill lo hi ws).grid r c = ws.grid r c)
      ∧ unmerge_and_fill lo hi (unmerge_and_fill lo hi ws) = unmerge_and_fill lo hi ws := by
  have hmerges : (unmerge_and_fill lo hi ws).merges
      = ws.merges.filter (fun m => !(mrIntersects lo hi m)) := by
    unfold unmerge_and_fill
    rw [fold_merges]
    exact foldl_erase_filter ws.merges (mrIntersects lo hi) hnd
  refine ⟨hmerges, ?_, ?_, ?_⟩
  · intro m hm hint r c hcov
    exact fold_grid_covered _ ws (List.Pairwise.sublist (List.filter_sublist _) hdisj) m
      (List.mem_filter.mpr ⟨hm, hint⟩) r c hcov
  · intro r c h
    apply fold_grid_untouched
    intro m hm
    exact h m (List.mem_of_mem_filter hm) (List.of_mem_filter hm)
  · have hempty : (unmerge_and_fill lo hi ws).merges.filter (mrIntersects lo hi) = [] := by
      rw [hmerges, List.filter_filter]
      simp
    show ((unmerge_and_fill lo hi ws).merges.filter (mrIntersects lo hi)).foldl unmergeOne
        (unmerge_and_fill lo hi ws) = unmerge_and_fill lo hi ws
    rw [hempty]
    rfl

/-- Witness for C9 on a one-region sheet: the intersecting region is
dissolved and a second run is a no-op. -/
theorem C9_witness :
    ((unmerge_and_fill 1 3 (WSheet.mk (fun _ _ => (CellVal.num 1, true))
        [MergeRange.mk 1 1 2 2])).merges
      = [MergeRange.mk 1 1 2 2].filter (fun m => !(mrIntersects 1 3 m)))
      ∧ unmerge_and_fill 1 3 (unmerge_and_fill 1 3 (WSheet.mk
            (fun _ _ => (CellVal.num 1, true)) [MergeRange.mk 1 1 2 2]))
          = unmerge_and_fill 1 3 (WSheet.mk (fun _ _ => (CellVal.num 1, true))
              [MergeRange.mk 1 1 2 2]) :=
  ⟨(C9_unmerge_and_fill 1 3 _ (by decide) (by decide)).1,
    (C9_unmerge_and_fill 1 3 _ (by decide) (by decide)).2.2.2⟩

end FuelsApp
